import Mathlib

/-!
Shallow embedding of the ivy file-based DBMS (`db.go`) and proofs about it.

A database maps table names to directories of JSON record files; an
in-memory tag index per table maps a tag string to the list of record ids
carrying that tag.  We model:

* decoded JSON values (`Jval`) as produced by `json.Unmarshal` into
  `interface{}`: only strings, numbers (always `float64`, never a Go
  `int`), booleans, null, arrays and objects arise;
* a table's directory as an association list from filename stem to file
  content, where `FileContent.corrupt` stands for a file whose read or
  JSON parse fails;
* Go outcomes as `GoResult`: a normal value, a returned non-nil `error`,
  or a runtime panic (nil-map / failed type assertion / nil-pointer
  dereference).

Go maps are modelled as association lists; lookup takes the first
matching key, and map iteration order (unspecified in Go) is modelled as
insertion order.  All properties about map-iteration results are stated
up to membership.
-/

namespace Ivy

/-- A decoded JSON value as `encoding/json` produces into `interface{}`:
`string`, `float64`, `bool`, `nil`, `[]interface{}`, `map[string]interface{}`.
Numbers carry an `Int` payload here only as an inert marker; no claim
compares numeric payloads.  Crucially there is no Go-`int` constructor:
`json.Unmarshal` never yields `int`/`int32`/`int64` inside `interface{}`. -/
inductive Jval where
  | jstr : String → Jval
  | jnum : Int → Jval
  | jbool : Bool → Jval
  | jnull : Jval
  | jarr : List Jval → Jval

/-- A decoded JSON object (`map[string]interface{}`), as an association list. -/
abbrev Doc := List (String × Jval)

/-- Content of one `<id>.json` file: a decodable JSON object, or a file whose
`ioutil.ReadFile`/`json.Unmarshal` fails (unreadable or malformed JSON). -/
inductive FileContent where
  | doc : Doc → FileContent
  | corrupt : FileContent

/-- Outcome of a Go call: normal result, returned non-nil `error`, or runtime
panic (failed type assertion, nil `*sync.RWMutex` method call). -/
inductive GoResult (α : Type) where
  | ok : α → GoResult α
  | err : GoResult α
  | panicked : GoResult α
deriving DecidableEq

/-- The dynamic type of the `searchValue interface{}` argument of the field
scans, matching the cases of their `switch searchValue.(type)`. -/
inductive SearchValue where
  | sInt : Int → SearchValue
  | sInt32 : Int → SearchValue
  | sInt64 : Int → SearchValue
  | sString : String → SearchValue
  | sOther : SearchValue
deriving DecidableEq

/-- Go map read `m[k]` with `ok` flag: first entry with the key. -/
def assocFind {β : Type} : List (String × β) → String → Option β
  | [], _ => none
  | (k', v) :: rest, k => if k' = k then some v else assocFind rest k

/-- Go map write `m[k] = v`: replace the entry if the key is present,
otherwise insert (modelled at the end, map order being unspecified). -/
def assocUpdate {β : Type} : List (String × β) → String → β → List (String × β)
  | [], k, v => [(k, v)]
  | (k', v') :: rest, k, v =>
    if k' = k then (k, v) :: rest else (k', v') :: assocUpdate rest k v

/-- Go map `delete(m, k)`. -/
def assocRemove {β : Type} : List (String × β) → String → List (String × β)
  | [], _ => []
  | (k', v) :: rest, k => if k' = k then rest else (k', v) :: assocRemove rest k

/-- Field read `rec[field]` on a decoded object: a missing key reads as the
zero `interface{}` value, which is Go `nil`, i.e. JSON null. -/
def docGet (d : Doc) (k : String) : Jval :=
  (assocFind d k).getD Jval.jnull

/-- `json.Unmarshal(data, &rec)` into a non-nil map reuses it, keeping
existing entries and overwriting keys present in the new document.  As a
key-to-value function that is new-over-old; with first-match lookup it is
list append. -/
def mergeDoc (old nw : Doc) : Doc := nw ++ old

/-- `strconv.Atoi`: optional sign, then one or more decimal digits.
(The 64-bit range check cannot fail on realistic filenames and is not
modelled.) -/
def parseAtoi (s : String) : Option Int :=
  match s.data with
  | [] => none
  | c :: rest =>
    let neg := c = '-'
    let digits := if c = '-' ∨ c = '+' then rest else c :: rest
    if digits = [] then none
    else if digits.all Char.isDigit then
      let n : Nat := digits.foldl (fun acc ch => acc * 10 + (ch.toNat - 48)) 0
      some (if neg then -(n : Int) else (n : Int))
    else none

/-- Decimal digits of a natural number, least significant first, written with
structural fuel so that concrete evaluation reduces; `natToString` always
passes sufficient fuel. -/
def natToDigitsRev : Nat → Nat → List Char
  | 0, _ => []
  | fuel + 1, n =>
    if n < 10 then [Nat.digitChar n]
    else Nat.digitChar (n % 10) :: natToDigitsRev fuel (n / 10)

/-- Decimal rendering of a natural number (as `strconv.Itoa` on nonnegative
values). -/
def natToString (n : Nat) : String := String.mk (natToDigitsRev (n + 1) n).reverse

/-- `strconv.Itoa`. -/
def intToString (i : Int) : String :=
  if i < 0 then "-" ++ natToString i.natAbs else natToString i.natAbs

/-- A table's directory: association of filename stem (the id string, the
`.json` suffix already stripped as in `fileIdsInDataDir`) to file content,
in directory-listing order. -/
abbrev TableFiles := List (String × FileContent)

/-- The in-memory tag index of one table: tag value to list of record ids. -/
abbrev TagIdx := List (String × List String)

/-- `fileIdsInDataDir`: the stems of the record files, in listing order. -/
def fileIdsInDataDir (files : TableFiles) : List String := files.map Prod.fst

/-- The loop of `nextAvailableFileId` that runs `strconv.Atoi` over every
stem, returning the first conversion error (`none`) if any stem fails. -/
def collectFileIds : List String → Option (List Int)
  | [] => some []
  | s :: rest =>
    match parseAtoi s with
    | none => none
    | some n => (collectFileIds rest).map (n :: ·)

/-- `nextAvailableFileId`: parse every stem, return `"1"` when there are no
record files, else `sort.Ints` and take the last (the maximum) plus one. -/
def nextAvailableFileId (stems : List String) : GoResult String :=
  match collectFileIds stems with
  | none => .err
  | some fileIds =>
    if fileIds = [] then .ok "1"
    else
      let lastFileId := (List.insertionSort (· ≤ ·) fileIds).getLastD 0
      .ok (intToString (lastFileId + 1))

/-- Inner loop of `initTagsIndex` over one record's decoded `tags` slice:
each element passes through the unchecked assertion `t.(string)` (panicking
on a non-string element), then the record id is appended to the tag's list
unless already present (`stringInSlice`). -/
def addTags : TagIdx → String → List Jval → GoResult TagIdx
  | acc, _, [] => .ok acc
  | acc, fileId, .jstr tag :: rest =>
    let acc2 :=
      match assocFind acc tag with
      | some fileIds =>
        if fileId ∈ fileIds then acc else assocUpdate acc tag (fileIds ++ [fileId])
      | none => acc ++ [(tag, [fileId])]
    addTags acc2 fileId rest
  | _, _, _ => .panicked

/-- The scan loop of `initTagsIndex`: read and decode each record file in
listing order (returning the read/decode error on a corrupt file), merge it
into the loop-local reused `rec` map, then pass the unchecked assertion
`rec["tags"].([]interface{})` (panicking when the merged value is not an
array) to `addTags`. -/
def initTagsIndexFiles : TableFiles → Doc → TagIdx → GoResult TagIdx
  | [], _, acc => .ok acc
  | (_, .corrupt) :: _, _, _ => .err
  | (fileId, .doc d) :: rest, rec, acc =>
    let rec2 := mergeDoc rec d
    match docGet rec2 "tags" with
    | .jarr tags =>
      match addTags acc fileId tags with
      | .ok acc2 => initTagsIndexFiles rest rec2 acc2
      | .err => .err
      | .panicked => .panicked
    | _ => .panicked

/-- The occurrence count that `FindAllIdsForTags` accumulates for one
candidate id: across all requested tags (with multiplicity), the number of
times the id occurs in that tag's index entry. -/
def countOcc (fileId : String) : List String → Nat
  | [] => 0
  | x :: rest => (if x = fileId then 1 else 0) + countOcc fileId rest

/-- One `possibleMatchingFileIdsMap` step: bump the id's count, inserting it
at count 1 when absent. -/
def bumpCount (m : List (String × Nat)) (fileId : String) : List (String × Nat) :=
  match assocFind m fileId with
  | some n => assocUpdate m fileId (n + 1)
  | none => m ++ [(fileId, 1)]

/-- The accumulation loops of `FindAllIdsForTags`: for each requested tag
present in the index, bump every id in its entry. -/
def buildCounts (idx : TagIdx) (searchTags : List String) : List (String × Nat) :=
  searchTags.foldl
    (fun m tag =>
      match assocFind idx tag with
      | some fileIds => fileIds.foldl bumpCount m
      | none => m)
    []

/-- `FindAllIdsForTags` on one table's index: empty search list short-circuits
to no ids; otherwise collect the ids whose occurrence count equals the number
of search tags.  (Go iterates the count map in unspecified order; modelled as
insertion order, and all properties are stated up to membership.) -/
def findAllIdsForTagsIdx (idx : TagIdx) (searchTags : List String) : List String :=
  if searchTags.isEmpty then []
  else
    (buildCounts idx searchTags).foldl
      (fun ids p => if p.2 = searchTags.length then ids ++ [p.1] else ids) []

/-- The `switch searchValue.(type)` body of `FindFirstIdForField` applied to
the current value of `rec[searchField]`.  The `int`/`int32`/`int64` cases run
`rec[searchField].(int)` etc.; a decoded JSON value is never a Go `int`
(numbers decode as `float64`), so those assertions always panic.  The
`string` case panics unless the stored value is a string.  Any other dynamic
type of `searchValue` falls through the switch without matching. -/
def fieldMatchesFirst (searchValue : SearchValue) (v : Jval) : GoResult Bool :=
  match searchValue with
  | .sInt _ => .panicked
  | .sInt32 _ => .panicked
  | .sInt64 _ => .panicked
  | .sString s =>
    match v with
    | .jstr t => .ok (t = s)
    | _ => .panicked
  | .sOther => .ok false

/-- The `switch searchValue.(type)` body of `FindAllIdsForField`: it has only
the `int` and `string` cases, so `int32`/`int64` search values fall through
without matching. -/
def fieldMatchesAll (searchValue : SearchValue) (v : Jval) : GoResult Bool :=
  match searchValue with
  | .sInt _ => .panicked
  | .sString s =>
    match v with
    | .jstr t => .ok (t = s)
    | _ => .panicked
  | _ => .ok false

/-- The scan loop of `FindFirstIdForField`: read/decode each file in listing
order (returning the error on a corrupt file), merge into the reused `rec`
map, test the field, and return the first matching id; `("", nil)` when the
scan completes without a match. -/
def findFirstIdForFieldFiles (searchField : String) (searchValue : SearchValue) :
    TableFiles → Doc → GoResult String
  | [], _ => .ok ""
  | (_, .corrupt) :: _, _ => .err
  | (fileId, .doc d) :: rest, rec =>
    let rec2 := mergeDoc rec d
    match fieldMatchesFirst searchValue (docGet rec2 searchField) with
    | .ok true => .ok fileId
    | .ok false => findFirstIdForFieldFiles searchField searchValue rest rec2
    | .err => .err
    | .panicked => .panicked

/-- The scan loop of `FindAllIdsForField`, accumulating every matching id. -/
def findAllIdsForFieldFiles (searchField : String) (searchValue : SearchValue) :
    TableFiles → Doc → List String → GoResult (List String)
  | [], _, ids => .ok ids
  | (_, .corrupt) :: _, _, _ => .err
  | (fileId, .doc d) :: rest, rec, ids =>
    let rec2 := mergeDoc rec d
    match fieldMatchesAll searchValue (docGet rec2 searchField) with
    | .ok true => findAllIdsForFieldFiles searchField searchValue rest rec2 (ids ++ [fileId])
    | .ok false => findAllIdsForFieldFiles searchField searchValue rest rec2 ids
    | .err => .err
    | .panicked => .panicked

/-- The database handle: the tables discovered (and given a lock) at open
time, each with its current directory contents, and the per-table tag
indexes.  A table name absent from `tables` has no `rwLocks` entry, so the
zero value `nil` is returned by the lock-map read and the `RLock`/`Lock`
call dereferences a nil pointer: a panic. -/
structure DB where
  tables : List (String × TableFiles)
  tagIndexes : List (String × TagIdx)

/-- The quirky clearing loop at the top of `initTagsIndex`: it iterates the
keys of the OUTER map `db.tagIndexes` (table names) and deletes those keys
from the table's inner tag map (`delete` on a nil inner map is a no-op). -/
def clearQuirk (tagIndexes : List (String × TagIdx)) (tblName : String) :
    List (String × TagIdx) :=
  let ks := tagIndexes.map Prod.fst
  tagIndexes.map fun p =>
    if p.1 = tblName then (p.1, p.2.filter (fun q => q.1 ∉ ks)) else p

/-- `initTagsIndex` at the handle level: clear (quirkily), scan the table's
files, and only on success overwrite the table's index with the freshly
built one; on error or panic the partially built local index is discarded. -/
def DB.initTagsIndexDB (db : DB) (tblName : String) : DB × GoResult Unit :=
  let db1 : DB := { db with tagIndexes := clearQuirk db.tagIndexes tblName }
  let files := ((assocFind db.tables tblName).getD [])
  match initTagsIndexFiles files [] [] with
  | .ok idx =>
    ({ db1 with tagIndexes := assocUpdate db1.tagIndexes tblName idx }, .ok ())
  | .err => (db1, .err)
  | .panicked => (db1, .panicked)

/-- `Find`: panics on an unknown table (nil lock), else `loadRec` reads and
decodes the file (an absent file is the `ReadFile` not-exist error), then the
caller's `AfterFind` hook runs (external code, modelled as a no-op). -/
def DB.find (db : DB) (tblName fileId : String) : GoResult Doc :=
  match assocFind db.tables tblName with
  | none => .panicked
  | some files =>
    match assocFind files fileId with
    | none => .err
    | some .corrupt => .err
    | some (.doc d) => .ok d

/-- `FindAllIds`: panics on an unknown table, else lists every stem. -/
def DB.findAllIds (db : DB) (tblName : String) : GoResult (List String) :=
  match assocFind db.tables tblName with
  | none => .panicked
  | some files => .ok (fileIdsInDataDir files)

/-- `FindFirstIdForField` at the handle level. -/
def DB.findFirstIdForField (db : DB) (tblName searchField : String)
    (searchValue : SearchValue) : GoResult String :=
  match assocFind db.tables tblName with
  | none => .panicked
  | some files => findFirstIdForFieldFiles searchField searchValue files []

/-- `FindAllIdsForField` at the handle level. -/
def DB.findAllIdsForField (db : DB) (tblName searchField : String)
    (searchValue : SearchValue) : GoResult (List String) :=
  match assocFind db.tables tblName with
  | none => .panicked
  | some files => findAllIdsForFieldFiles searchField searchValue files [] []

/-- `FindAllIdsForTags` at the handle level: panics on an unknown table; a
table with no index entry reads as the nil map, whose lookups all miss. -/
def DB.findAllIdsForTags (db : DB) (tblName : String) (searchTags : List String) :
    GoResult (List String) :=
  match assocFind db.tables tblName with
  | none => .panicked
  | some _ =>
    .ok (findAllIdsForTagsIdx ((assocFind db.tagIndexes tblName).getD []) searchTags)

/-- `Create`: panics on an unknown table (nil lock `Lock`), allocates the
next id, serializes the caller's struct (`json.Marshal` of a struct cannot
fail; the write is modelled as succeeding), writes the file, rebuilds the
index and propagates a rebuild error or panic; on success returns the id. -/
def DB.create (db : DB) (tblName : String) (recDoc : Doc) : DB × GoResult String :=
  match assocFind db.tables tblName with
  | none => (db, .panicked)
  | some files =>
    match nextAvailableFileId (fileIdsInDataDir files) with
    | .err => (db, .err)
    | .panicked => (db, .panicked)
    | .ok fileId =>
      let files2 := assocUpdate files fileId (.doc recDoc)
      let db2 : DB := { db with tables := assocUpdate db.tables tblName files2 }
      match db2.initTagsIndexDB tblName with
      | (db3, .ok _) => (db3, .ok fileId)
      | (db3, .err) => (db3, .err)
      | (db3, .panicked) => (db3, .panicked)

/-- `Update`: panics on an unknown table (nil lock `Lock`); requires only
that `fileId` pass `strconv.Atoi`; overwrites the file unconditionally; then
calls `initTagsIndex` but DISCARDS its return value (the `err != nil` check
after it still sees the nil error of the successful write), so a rebuild
error is swallowed and `Update` returns nil; a rebuild panic still crashes. -/
def DB.update (db : DB) (tblName : String) (recDoc : Doc) (fileId : String) :
    DB × GoResult Unit :=
  match assocFind db.tables tblName with
  | none => (db, .panicked)
  | some files =>
    match parseAtoi fileId with
    | none => (db, .err)
    | some _ =>
      let files2 := assocUpdate files fileId (.doc recDoc)
      let db2 : DB := { db with tables := assocUpdate db.tables tblName files2 }
      match db2.initTagsIndexDB tblName with
      | (db3, .panicked) => (db3, .panicked)
      | (db3, _) => (db3, .ok ())

/-- `Delete`: checks `strconv.Atoi` BEFORE taking the lock (so an unknown
table with a non-integer id returns the parse error rather than panicking);
then panics on an unknown table; `os.Remove` of an absent file is an error;
then rebuilds the index, propagating its error or panic. -/
def DB.delete (db : DB) (tblName fileId : String) : DB × GoResult Unit :=
  match parseAtoi fileId with
  | none => (db, .err)
  | some _ =>
    match assocFind db.tables tblName with
    | none => (db, .panicked)
    | some files =>
      match assocFind files fileId with
      | none => (db, .err)
      | some _ =>
        let files2 := assocRemove files fileId
        let db2 : DB := { db with tables := assocUpdate db.tables tblName files2 }
        match db2.initTagsIndexDB tblName with
        | (db3, .ok _) => (db3, .ok ())
        | (db3, .err) => (db3, .err)
        | (db3, .panicked) => (db3, .panicked)

/-! ### Association-list lemmas -/

theorem assocFind_assocUpdate {β : Type} (m : List (String × β)) (k k' : String) (v : β) :
    assocFind (assocUpdate m k v) k' = if k' = k then some v else assocFind m k' := by
  induction m with
  | nil =>
    simp only [assocUpdate, assocFind]
    split_ifs <;> simp_all
  | cons p rest ih =>
    obtain ⟨k₀, v₀⟩ := p
    by_cases h : k₀ = k
    · subst h
      clear ih
      simp only [assocUpdate, if_pos rfl, assocFind]
      split_ifs <;> simp_all
    · simp only [assocUpdate, if_neg h, assocFind, ih]
      clear ih
      split_ifs <;> simp_all

theorem assocFind_append {β : Type} (m m' : List (String × β)) (k : String) :
    assocFind (m ++ m') k =
      match assocFind m k with
      | some v => some v
      | none => assocFind m' k := by
  induction m with
  | nil => simp [assocFind]
  | cons p rest ih =>
    obtain ⟨k₀, v₀⟩ := p
    by_cases h : k₀ = k <;> simp [assocFind, h, ih]

theorem assocFind_mem {β : Type} {m : List (String × β)} {k : String} {v : β}
    (h : assocFind m k = some v) : (k, v) ∈ m := by
  induction m with
  | nil => simp [assocFind] at h
  | cons p rest ih =>
    obtain ⟨k₀, v₀⟩ := p
    by_cases h₀ : k₀ = k
    · subst h₀
      simp [assocFind] at h
      simp [h]
    · simp [assocFind, h₀] at h
      exact List.mem_cons_of_mem _ (ih h)

theorem assocFind_eq_none_iff {β : Type} (m : List (String × β)) (k : String) :
    assocFind m k = none ↔ k ∉ m.map Prod.fst := by
  induction m with
  | nil => simp [assocFind]
  | cons p rest ih =>
    obtain ⟨k₀, v₀⟩ := p
    by_cases h : k₀ = k
    · subst h
      simp [assocFind]
    · rw [assocFind, if_neg h, ih, List.map_cons]
      constructor
      · intro hk hmem
        rcases List.mem_cons.mp hmem with h1 | h2
        · exact h h1.symm
        · exact hk h2
      · intro hk hmem
        exact hk (List.mem_cons_of_mem _ hmem)

theorem assocFind_some_of_mem {β : Type} {m : List (String × β)} {k : String} {v : β}
    (hnd : (m.map Prod.fst).Nodup) (hmem : (k, v) ∈ m) : assocFind m k = some v := by
  induction m with
  | nil => simp at hmem
  | cons p rest ih =>
    obtain ⟨k₀, v₀⟩ := p
    simp only [List.map_cons, List.nodup_cons] at hnd
    rcases List.mem_cons.mp hmem with h | h
    · obtain ⟨hk, hv⟩ := Prod.mk.injEq .. ▸ h
      simp [assocFind, hk.symm, hv]
    · have hk : k₀ ≠ k := by
        intro hh
        subst hh
        exact hnd.1 (List.mem_map.mpr ⟨(k₀, v), h, rfl⟩)
      simp [assocFind, hk]
      exact ih hnd.2 h

theorem keys_assocUpdate_of_found {β : Type} (m : List (String × β)) (k : String) (v : β)
    (h : (assocFind m k).isSome) :
    (assocUpdate m k v).map Prod.fst = m.map Prod.fst := by
  induction m with
  | nil => simp [assocFind] at h
  | cons p rest ih =>
    obtain ⟨k₀, v₀⟩ := p
    by_cases hk : k₀ = k
    · subst hk
      simp [assocUpdate]
    · simp only [assocFind, if_neg hk] at h
      simp [assocUpdate, hk, ih h]

theorem keys_assocUpdate_of_absent {β : Type} (m : List (String × β)) (k : String) (v : β)
    (h : assocFind m k = none) :
    (assocUpdate m k v).map Prod.fst = m.map Prod.fst ++ [k] := by
  induction m with
  | nil => simp [assocUpdate]
  | cons p rest ih =>
    obtain ⟨k₀, v₀⟩ := p
    by_cases hk : k₀ = k
    · subst hk
      simp [assocFind] at h
    · simp only [assocFind, if_neg hk] at h
      simp [assocUpdate, hk, ih h]

/-! ### docGet and the reused-map merge -/

theorem docGet_mergeDoc_of_ne_null (rec d : Doc) (f : String)
    (h : docGet d f ≠ Jval.jnull) : docGet (mergeDoc rec d) f = docGet d f := by
  unfold docGet at *
  unfold mergeDoc
  rw [assocFind_append]
  cases hd : assocFind d f with
  | some v => simp
  | none => simp [hd] at h

theorem docGet_mergeDoc_nil (d : Doc) (f : String) :
    docGet (mergeDoc [] d) f = docGet d f := by
  unfold mergeDoc
  rw [List.append_nil]

/-! ### Tag-index rebuild lemmas -/

/-- A record file that decodes and whose `tags` field is an array of
strings (possibly empty). -/
abbrev GoodTagsFile (p : String × FileContent) : Prop :=
  ∃ (d : Doc) (ts : List String),
    p.2 = FileContent.doc d ∧ docGet d "tags" = Jval.jarr (ts.map Jval.jstr)

/-- A record file that is readable and decodes to some object. -/
abbrev GoodDocFile (p : String × FileContent) : Prop :=
  ∃ d, p.2 = FileContent.doc d

theorem addTags_strings_ok (fid : String) (ts : List String) (acc : TagIdx) :
    ∃ acc2, addTags acc fid (ts.map Jval.jstr) = .ok acc2 := by
  induction ts generalizing acc with
  | nil => exact ⟨acc, rfl⟩
  | cons t rest ih =>
    simp only [List.map_cons, addTags]
    exact ih _

theorem addTags_panic_of_bad_elem (fid : String) (pre : List String) (v : Jval)
    (rest : List Jval) (acc : TagIdx) (hv : ∀ s, v ≠ Jval.jstr s) :
    addTags acc fid (pre.map Jval.jstr ++ v :: rest) = .panicked := by
  induction pre generalizing acc with
  | nil =>
    cases v with
    | jstr s => exact absurd rfl (hv s)
    | jnum n => rfl
    | jbool b => rfl
    | jnull => rfl
    | jarr l => rfl
  | cons t pre' ih =>
    simp only [List.map_cons, List.cons_append, addTags]
    exact ih _

theorem initTagsIndexFiles_ok (files : TableFiles) (h : ∀ p ∈ files, GoodTagsFile p) :
    ∀ rec acc, ∃ idx, initTagsIndexFiles files rec acc = .ok idx := by
  induction files with
  | nil => exact fun rec acc => ⟨acc, rfl⟩
  | cons p rest ih =>
    intro rec acc
    obtain ⟨fid, c⟩ := p
    obtain ⟨d, ts, hdoc, htags⟩ := h (fid, c) (List.mem_cons_self _ _)
    simp only at hdoc
    subst hdoc
    have hne : docGet d "tags" ≠ Jval.jnull := by simp [htags]
    simp only [initTagsIndexFiles, docGet_mergeDoc_of_ne_null rec d "tags" hne, htags]
    obtain ⟨acc2, hacc2⟩ := addTags_strings_ok fid ts acc
    rw [hacc2]
    exact ih (fun q hq => h q (List.mem_cons_of_mem _ hq)) _ _

theorem initTagsIndexFiles_err_of_corrupt (pre : TableFiles) (fid : String)
    (post : TableFiles) (h : ∀ p ∈ pre, GoodTagsFile p) :
    ∀ rec acc, initTagsIndexFiles (pre ++ (fid, FileContent.corrupt) :: post) rec acc = .err := by
  induction pre with
  | nil => exact fun rec acc => rfl
  | cons p rest ih =>
    intro rec acc
    obtain ⟨fid', c⟩ := p
    obtain ⟨d, ts, hdoc, htags⟩ := h (fid', c) (List.mem_cons_self _ _)
    simp only at hdoc
    subst hdoc
    have hne : docGet d "tags" ≠ Jval.jnull := by simp [htags]
    simp only [List.cons_append, initTagsIndexFiles,
      docGet_mergeDoc_of_ne_null rec d "tags" hne, htags]
    obtain ⟨acc2, hacc2⟩ := addTags_strings_ok fid' ts acc
    rw [hacc2]
    exact ih (fun q hq => h q (List.mem_cons_of_mem _ hq)) _ _

theorem initTagsIndexFiles_panic_of_first_not_array (fid : String) (d : Doc)
    (rest : TableFiles) (acc : TagIdx) (h : ∀ l, docGet d "tags" ≠ Jval.jarr l) :
    initTagsIndexFiles ((fid, FileContent.doc d) :: rest) [] acc = .panicked := by
  simp only [initTagsIndexFiles, docGet_mergeDoc_nil]

theorem initTagsIndexFiles_panic_of_first_bad_elem (fid : String) (d : Doc)
    (rest : TableFiles) (acc : TagIdx) (pre : List String) (v : Jval) (post : List Jval)
    (htags : docGet d "tags" = Jval.jarr (pre.map Jval.jstr ++ v :: post))
    (hv : ∀ s, v ≠ Jval.jstr s) :
    initTagsIndexFiles ((fid, FileContent.doc d) :: rest) [] acc = .panicked := by
  simp only [initTagsIndexFiles, docGet_mergeDoc_nil, htags]
  rw [addTags_panic_of_bad_elem fid pre v post acc hv]

/-! ### Field-scan lemmas -/

/-- Whether a record file holds a decodable object whose `searchField` is the
string `s` (the string-search match condition of the scans). -/
def hasFieldStr (c : FileContent) (searchField s : String) : Bool :=
  match c with
  | .doc d =>
    match docGet d searchField with
    | .jstr t => t = s
    | _ => false
  | .corrupt => false

/-- The id the claim expects `FindFirstIdForField` to return for a string
search: the first record in listing order whose field equals the value,
`""` if none. -/
def firstMatchId (files : TableFiles) (searchField s : String) : String :=
  match files.find? (fun p => hasFieldStr p.2 searchField s) with
  | some p => p.1
  | none => ""

/-- The ids the claim expects `FindAllIdsForField` to return for a string
search: every matching record, in listing order. -/
def allMatchIds (files : TableFiles) (searchField s : String) : List String :=
  (files.filter (fun p => hasFieldStr p.2 searchField s)).map Prod.fst

/-- Every record file decodes and stores a string under `searchField`, so
the reused-map merge is invisible at that field and the `.(string)`
assertions all succeed. -/
abbrev AllFieldsStr (files : TableFiles) (searchField : String) : Prop :=
  ∀ p ∈ files, ∃ (d : Doc) (t : String),
    p.2 = FileContent.doc d ∧ docGet d searchField = Jval.jstr t

theorem findFirstIdForFieldFiles_string (searchField s : String) (files : TableFiles)
    (h : AllFieldsStr files searchField) :
    ∀ rec, findFirstIdForFieldFiles searchField (.sString s) files rec =
      .ok (firstMatchId files searchField s) := by
  induction files with
  | nil => intro rec; rfl
  | cons p rest ih =>
    intro rec
    obtain ⟨fid, c⟩ := p
    obtain ⟨d, t, hdoc, hf⟩ := h (fid, c) (List.mem_cons_self _ _)
    simp only at hdoc
    subst hdoc
    have hne : docGet d searchField ≠ Jval.jnull := by simp [hf]
    simp only [findFirstIdForFieldFiles,
      docGet_mergeDoc_of_ne_null rec d searchField hne, hf, fieldMatchesFirst]
    by_cases hts : t = s
    · subst hts
      have hfind :
          List.find? (fun p => hasFieldStr p.2 searchField t)
              ((fid, FileContent.doc d) :: rest) = some (fid, FileContent.doc d) :=
        List.find?_cons_of_pos _ (by simp [hasFieldStr, hf])
      simp [firstMatchId, hfind]
    · have hrec := ih (fun q hq => h q (List.mem_cons_of_mem _ hq)) (mergeDoc rec d)
      have hfind :
          List.find? (fun p => hasFieldStr p.2 searchField s)
              ((fid, FileContent.doc d) :: rest) =
            List.find? (fun p => hasFieldStr p.2 searchField s) rest :=
        List.find?_cons_of_neg _ (by simp [hasFieldStr, hf, hts])
      simp only [hts, decide_False, if_false, hrec, firstMatchId, hfind]

theorem findAllIdsForFieldFiles_string (searchField s : String) (files : TableFiles)
    (h : AllFieldsStr files searchField) :
    ∀ rec ids, findAllIdsForFieldFiles searchField (.sString s) files rec ids =
      .ok (ids ++ allMatchIds files searchField s) := by
  induction files with
  | nil => intro rec ids; simp [findAllIdsForFieldFiles, allMatchIds]
  | cons p rest ih =>
    intro rec ids
    obtain ⟨fid, c⟩ := p
    obtain ⟨d, t, hdoc, hf⟩ := h (fid, c) (List.mem_cons_self _ _)
    simp only at hdoc
    subst hdoc
    have hne : docGet d searchField ≠ Jval.jnull := by simp [hf]
    have hrest := ih (fun q hq => h q (List.mem_cons_of_mem _ hq)) (mergeDoc rec d)
    simp only [findAllIdsForFieldFiles,
      docGet_mergeDoc_of_ne_null rec d searchField hne, hf, fieldMatchesAll]
    by_cases hts : t = s
    · subst hts
      have hfil :
          List.filter (fun p => hasFieldStr p.2 searchField t)
              ((fid, FileContent.doc d) :: rest) =
            (fid, FileContent.doc d) ::
              List.filter (fun p => hasFieldStr p.2 searchField t) rest := by
        rw [List.filter_cons_of_pos (by simp [hasFieldStr, hf])]
      simp only [decide_True, if_true, hrest, allMatchIds, hfil, List.map_cons]
      simp
    · have hfil :
          List.filter (fun p => hasFieldStr p.2 searchField s)
              ((fid, FileContent.doc d) :: rest) =
            List.filter (fun p => hasFieldStr p.2 searchField s) rest := by
        rw [List.filter_cons_of_neg (by simp [hasFieldStr, hf, hts])]
      simp only [hts, decide_False, if_false, hrest, allMatchIds, hfil]

theorem findFirstIdForFieldFiles_unsupported (searchField : String) (files : TableFiles)
    (h : ∀ p ∈ files, GoodDocFile p) :
    ∀ rec, findFirstIdForFieldFiles searchField .sOther files rec = .ok "" := by
  induction files with
  | nil => intro rec; rfl
  | cons p rest ih =>
    intro rec
    obtain ⟨fid, c⟩ := p
    obtain ⟨d, hdoc⟩ := h (fid, c) (List.mem_cons_self _ _)
    simp only at hdoc
    subst hdoc
    simp only [findFirstIdForFieldFiles, fieldMatchesFirst]
    exact ih (fun q hq => h q (List.mem_cons_of_mem _ hq)) _

theorem findAllIdsForFieldFiles_no_case (searchField : String)
    (searchValue : SearchValue) (files : TableFiles)
    (hsv : ∀ v, fieldMatchesAll searchValue v = .ok false)
    (h : ∀ p ∈ files, GoodDocFile p) :
    ∀ rec ids, findAllIdsForFieldFiles searchField searchValue files rec ids = .ok ids := by
  induction files with
  | nil => intro rec ids; rfl
  | cons p rest ih =>
    intro rec ids
    obtain ⟨fid, c⟩ := p
    obtain ⟨d, hdoc⟩ := h (fid, c) (List.mem_cons_self _ _)
    simp only at hdoc
    subst hdoc
    simp only [findAllIdsForFieldFiles, hsv]
    exact ih (fun q hq => h q (List.mem_cons_of_mem _ hq)) _ _

theorem findFirstIdForFieldFiles_int_panics (searchField : String) (n : Int)
    (fid : String) (d : Doc) (rest : TableFiles) (rec : Doc) :
    findFirstIdForFieldFiles searchField (.sInt n) ((fid, FileContent.doc d) :: rest) rec
        = .panicked ∧
      findFirstIdForFieldFiles searchField (.sInt32 n) ((fid, FileContent.doc d) :: rest) rec
        = .panicked ∧
      findFirstIdForFieldFiles searchField (.sInt64 n) ((fid, FileContent.doc d) :: rest) rec
        = .panicked := by
  refine ⟨?_, ?_, ?_⟩ <;> rfl

theorem findAllIdsForFieldFiles_int_panics (searchField : String) (n : Int)
    (fid : String) (d : Doc) (rest : TableFiles) (rec : Doc) (ids : List String) :
    findAllIdsForFieldFiles searchField (.sInt n) ((fid, FileContent.doc d) :: rest) rec ids
      = .panicked := by
  rfl

/-! ### Tag-query counting lemmas -/

/-- The candidate list the index holds for one tag (a missing tag reads as
the absent `ok=false` case, contributing nothing, like an empty list). -/
def lookupD (idx : TagIdx) (tag : String) : List String :=
  (assocFind idx tag).getD []

/-- Total number of occurrences of `fileId` across the candidate lists of
all requested tags (with multiplicity): the final value the count map holds
for `fileId`. -/
def tagOccurrences (idx : TagIdx) (searchTags : List String) (fileId : String) : Nat :=
  (searchTags.map (fun t => countOcc fileId (lookupD idx t))).sum

theorem countOcc_pos_iff_mem (fileId : String) (l : List String) :
    1 ≤ countOcc fileId l ↔ fileId ∈ l := by
  induction l with
  | nil => simp [countOcc]
  | cons x rest ih =>
    by_cases h : x = fileId
    · subst h
      simp [countOcc]
    · have : ¬ (fileId = x) := fun hh => h hh.symm
      simp [countOcc, h, this, ih]

theorem countOcc_le_one_of_nodup (fileId : String) (l : List String) (h : l.Nodup) :
    countOcc fileId l ≤ 1 := by
  induction l with
  | nil => simp [countOcc]
  | cons x rest ih =>
    rcases List.nodup_cons.mp h with ⟨hx, hrest⟩
    by_cases hxf : x = fileId
    · subst hxf
      have : countOcc x rest = 0 := by
        by_contra hc
        exact hx ((countOcc_pos_iff_mem x rest).mp (by omega))
      simp [countOcc, this]
    · simp [countOcc, hxf, ih hrest]

theorem assocFind_bumpCount (m : List (String × Nat)) (fid fid' : String) :
    assocFind (bumpCount m fid) fid' =
      if fid' = fid then some ((assocFind m fid).getD 0 + 1) else assocFind m fid' := by
  unfold bumpCount
  cases hm : assocFind m fid with
  | some n => simp [assocFind_assocUpdate, hm]
  | none =>
    rw [assocFind_append]
    by_cases h : fid' = fid
    · subst h
      simp [hm, assocFind]
    · cases hm' : assocFind m fid' with
      | some v => simp [hm', h]
      | none =>
        have hsym : ¬ (fid = fid') := fun hh => h hh.symm
        simp [hm', assocFind, h, hsym]

theorem assocFind_foldl_bumpCount (l : List String) (m : List (String × Nat))
    (fid : String) :
    assocFind (l.foldl bumpCount m) fid =
      if (assocFind m fid).isSome ∨ fid ∈ l
      then some ((assocFind m fid).getD 0 + countOcc fid l) else none := by
  induction l generalizing m with
  | nil =>
    cases hm : assocFind m fid <;> simp [countOcc, hm]
  | cons x rest ih =>
    simp only [List.foldl_cons]
    rw [ih (bumpCount m x), assocFind_bumpCount]
    by_cases h : fid = x
    · subst h
      cases hm : assocFind m fid <;>
        simp [countOcc, hm, List.mem_cons] <;> omega
    · have hxs : ¬ (x = fid) := fun hh => h hh.symm
      cases hm : assocFind m fid <;>
        simp [countOcc, hm, h, hxs, List.mem_cons]

theorem step_as_foldl (idx : TagIdx) (m : List (String × Nat)) (tag : String) :
    (match assocFind idx tag with
      | some fileIds => fileIds.foldl bumpCount m
      | none => m) = (lookupD idx tag).foldl bumpCount m := by
  unfold lookupD
  cases h : assocFind idx tag <;> simp

theorem assocFind_buildCounts_aux (idx : TagIdx) (ts : List String)
    (m : List (String × Nat)) (fid : String) :
    assocFind (ts.foldl (fun m' tag => (lookupD idx tag).foldl bumpCount m') m) fid =
      if (assocFind m fid).isSome ∨ ∃ t ∈ ts, fid ∈ lookupD idx t
      then some ((assocFind m fid).getD 0 + tagOccurrences idx ts fid) else none := by
  induction ts generalizing m with
  | nil =>
    cases hm : assocFind m fid <;> simp [tagOccurrences, hm]
  | cons t rest ih =>
    have hstep : (t :: rest).foldl (fun m' tag => (lookupD idx tag).foldl bumpCount m') m =
        rest.foldl (fun m' tag => (lookupD idx tag).foldl bumpCount m')
          ((lookupD idx t).foldl bumpCount m) := rfl
    rw [hstep, ih, assocFind_foldl_bumpCount]
    have hocc : tagOccurrences idx (t :: rest) fid =
        countOcc fid (lookupD idx t) + tagOccurrences idx rest fid := by
      simp [tagOccurrences]
    by_cases hmem : fid ∈ lookupD idx t
    · have h1 : 1 ≤ countOcc fid (lookupD idx t) := (countOcc_pos_iff_mem _ _).mpr hmem
      cases hm : assocFind m fid <;>
        simp [hm, hmem, hocc, List.mem_cons] <;> omega
    · have h0 : countOcc fid (lookupD idx t) = 0 := by
        by_contra hc
        exact hmem ((countOcc_pos_iff_mem _ _).mp (by omega))
      cases hm : assocFind m fid <;>
        simp [hm, hmem, hocc, h0, List.mem_cons]

theorem buildCounts_eq_clean (idx : TagIdx) (ts : List String) :
    buildCounts idx ts = ts.foldl (fun m' tag => (lookupD idx tag).foldl bumpCount m') [] := by
  unfold buildCounts
  congr 1
  funext m' tag
  exact step_as_foldl idx m' tag

theorem assocFind_buildCounts (idx : TagIdx) (ts : List String) (fid : String) :
    assocFind (buildCounts idx ts) fid =
      if ∃ t ∈ ts, fid ∈ lookupD idx t
      then some (tagOccurrences idx ts fid) else none := by
  rw [buildCounts_eq_clean, assocFind_buildCounts_aux]
  simp [assocFind]

theorem mem_collect_loop (counts : List (String × Nat)) (n : Nat) (fid : String) :
    ∀ acc, fid ∈ counts.foldl (fun ids p => if p.2 = n then ids ++ [p.1] else ids) acc ↔
      fid ∈ acc ∨ ∃ c, (fid, c) ∈ counts ∧ c = n := by
  induction counts with
  | nil => simp
  | cons p rest ih =>
    intro acc
    obtain ⟨k, c⟩ := p
    simp only [List.foldl_cons]
    by_cases hc : c = n
    · subst hc
      rw [if_pos rfl, ih]
      constructor
      · rintro (ha | ⟨c', hmem, rfl⟩)
        · rcases List.mem_append.mp ha with h1 | h2
          · exact Or.inl h1
          · have hk : fid = k := by simpa using h2
            subst hk
            exact Or.inr ⟨c, List.mem_cons_self _ _, rfl⟩
        · exact Or.inr ⟨c', List.mem_cons_of_mem _ hmem, rfl⟩
      · rintro (ha | ⟨c', hmem, rfl⟩)
        · exact Or.inl (List.mem_append.mpr (Or.inl ha))
        · rcases List.mem_cons.mp hmem with heq | hmem'
          · have hk : fid = k := congrArg Prod.fst heq
            exact Or.inl (List.mem_append.mpr (Or.inr (by simp [hk])))
          · exact Or.inr ⟨c', hmem', rfl⟩
    · rw [if_neg hc, ih]
      constructor
      · rintro (ha | ⟨c', hmem, rfl⟩)
        · exact Or.inl ha
        · exact Or.inr ⟨c', List.mem_cons_of_mem _ hmem, rfl⟩
      · rintro (ha | ⟨c', hmem, rfl⟩)
        · exact Or.inl ha
        · rcases List.mem_cons.mp hmem with heq | hmem'
          · have hcc := congrArg Prod.snd heq
            exact absurd hcc.symm hc
          · exact Or.inr ⟨c', hmem', rfl⟩

theorem keysNodup_bumpCount (m : List (String × Nat)) (fid : String)
    (h : (m.map Prod.fst).Nodup) : ((bumpCount m fid).map Prod.fst).Nodup := by
  unfold bumpCount
  cases hm : assocFind m fid with
  | some n =>
    rw [keys_assocUpdate_of_found m fid (n + 1) (by simp [hm])]
    exact h
  | none =>
    have hnot : fid ∉ m.map Prod.fst := (assocFind_eq_none_iff m fid).mp hm
    simp only [List.map_append, List.map_cons, List.map_nil]
    rw [List.nodup_append]
    refine ⟨h, List.nodup_singleton fid, ?_⟩
    intro a ha hfa
    rw [List.mem_singleton] at hfa
    subst hfa
    exact hnot ha

theorem keysNodup_foldl_bumpCount (l : List String) (m : List (String × Nat))
    (h : (m.map Prod.fst).Nodup) : ((l.foldl bumpCount m).map Prod.fst).Nodup := by
  induction l generalizing m with
  | nil => exact h
  | cons x rest ih => exact ih _ (keysNodup_bumpCount m x h)

theorem keysNodup_buildCounts (idx : TagIdx) (ts : List String) :
    ((buildCounts idx ts).map Prod.fst).Nodup := by
  rw [buildCounts_eq_clean]
  have : ∀ (ts' : List String) (m : List (String × Nat)), (m.map Prod.fst).Nodup →
      ((ts'.foldl (fun m' tag => (lookupD idx tag).foldl bumpCount m') m).map Prod.fst).Nodup := by
    intro ts'
    induction ts' with
    | nil => exact fun m hm => hm
    | cons t rest ih =>
      intro m hm
      exact ih _ (keysNodup_foldl_bumpCount _ _ hm)
  exact this ts [] (by simp)

theorem mem_findAllIdsForTagsIdx (idx : TagIdx) (ts : List String) (fid : String)
    (hne : ts ≠ []) :
    fid ∈ findAllIdsForTagsIdx idx ts ↔
      (∃ t ∈ ts, fid ∈ lookupD idx t) ∧ tagOccurrences idx ts fid = ts.length := by
  unfold findAllIdsForTagsIdx
  rw [if_neg (by simpa [List.isEmpty_iff] using hne)]
  rw [mem_collect_loop]
  simp only [List.not_mem_nil, false_or]
  constructor
  · rintro ⟨c, hmem, hc⟩
    subst hc
    have hfind := assocFind_some_of_mem (keysNodup_buildCounts idx ts) hmem
    rw [assocFind_buildCounts] at hfind
    by_cases hex : ∃ t ∈ ts, fid ∈ lookupD idx t
    · rw [if_pos hex] at hfind
      exact ⟨hex, Option.some_inj.mp hfind⟩
    · rw [if_neg hex] at hfind
      exact absurd hfind (by simp)
  · rintro ⟨hex, hocc⟩
    refine ⟨ts.length, ?_, rfl⟩
    have hfind : assocFind (buildCounts idx ts) fid = some ts.length := by
      rw [assocFind_buildCounts, if_pos hex, hocc]
    exact assocFind_mem hfind

theorem sum_le_length (l : List Nat) (h : ∀ x ∈ l, x ≤ 1) : l.sum ≤ l.length := by
  induction l with
  | nil => simp
  | cons x rest ih =>
    have hx := h x (List.mem_cons_self _ _)
    have := ih (fun y hy => h y (List.mem_cons_of_mem _ hy))
    simp only [List.sum_cons, List.length_cons]
    omega

theorem sum_eq_length_iff (l : List Nat) (h : ∀ x ∈ l, x ≤ 1) :
    l.sum = l.length ↔ ∀ x ∈ l, x = 1 := by
  induction l with
  | nil => simp
  | cons x rest ih =>
    have hx : x ≤ 1 := h x (List.mem_cons_self _ _)
    have hrest : ∀ y ∈ rest, y ≤ 1 := fun y hy => h y (List.mem_cons_of_mem _ hy)
    have hsum : rest.sum ≤ rest.length := sum_le_length rest hrest
    simp only [List.sum_cons, List.length_cons, List.mem_cons]
    constructor
    · intro heq
      have hx1 : x = 1 := by omega
      have h2 : rest.sum = rest.length := by omega
      have h3 := (ih hrest).mp h2
      rintro y (rfl | hy)
      · exact hx1
      · exact h3 y hy
    · intro hall
      have hx1 : x = 1 := hall x (Or.inl rfl)
      have h3 : rest.sum = rest.length := (ih hrest).mpr (fun y hy => hall y (Or.inr hy))
      omega

theorem lookupD_nodup (idx : TagIdx) (t : String) (hn : ∀ p ∈ idx, p.2.Nodup) :
    (lookupD idx t).Nodup := by
  unfold lookupD
  cases hf : assocFind idx t with
  | some l => exact hn (t, l) (assocFind_mem hf)
  | none => simp

theorem tagOccurrences_eq_length_iff (idx : TagIdx) (ts : List String) (fid : String)
    (hn : ∀ p ∈ idx, p.2.Nodup) :
    tagOccurrences idx ts fid = ts.length ↔ ∀ t ∈ ts, fid ∈ lookupD idx t := by
  unfold tagOccurrences
  have hle : ∀ x ∈ ts.map (fun t => countOcc fid (lookupD idx t)), x ≤ 1 := by
    intro x hx
    obtain ⟨t, ht, rfl⟩ := List.mem_map.mp hx
    exact countOcc_le_one_of_nodup fid _ (lookupD_nodup idx t hn)
  rw [show ts.length = (ts.map (fun t => countOcc fid (lookupD idx t))).length by simp]
  rw [sum_eq_length_iff _ hle]
  constructor
  · intro hall t ht
    have h1 : countOcc fid (lookupD idx t) = 1 :=
      hall _ (List.mem_map.mpr ⟨t, ht, rfl⟩)
    exact (countOcc_pos_iff_mem fid _).mp (by omega)
  · intro hall x hx
    obtain ⟨t, ht, rfl⟩ := List.mem_map.mp hx
    have h1 : 1 ≤ countOcc fid (lookupD idx t) :=
      (countOcc_pos_iff_mem fid _).mpr (hall t ht)
    have h2 : countOcc fid (lookupD idx t) ≤ 1 :=
      countOcc_le_one_of_nodup fid _ (lookupD_nodup idx t hn)
    omega

theorem mem_findAllIdsForTagsIdx_inter (idx : TagIdx) (ts : List String) (fid : String)
    (hne : ts ≠ []) (hn : ∀ p ∈ idx, p.2.Nodup) :
    fid ∈ findAllIdsForTagsIdx idx ts ↔ ∀ t ∈ ts, fid ∈ lookupD idx t := by
  rw [mem_findAllIdsForTagsIdx idx ts fid hne, tagOccurrences_eq_length_iff idx ts fid hn]
  constructor
  · exact fun h => h.2
  · intro h
    obtain ⟨t0, ht0⟩ := List.exists_mem_of_ne_nil ts hne
    exact ⟨⟨t0, ht0, h t0 ht0⟩, h⟩

/-! ### Decimal rendering and parsing lemmas -/

/-- Value of a digit list, least significant digit first. -/
def valLSD : List Char → Nat
  | [] => 0
  | c :: rest => (c.toNat - 48) + 10 * valLSD rest

theorem digitChar_toNat (d : Nat) (h : d < 10) : (Nat.digitChar d).toNat = 48 + d := by
  interval_cases d <;> decide

theorem digitChar_isDigit (d : Nat) (h : d < 10) : (Nat.digitChar d).isDigit = true := by
  interval_cases d <;> decide

theorem natToDigitsRev_spec (n : Nat) : ∀ fuel, n < fuel →
    natToDigitsRev fuel n ≠ [] ∧ (∀ c ∈ natToDigitsRev fuel n, c.isDigit = true) ∧
      valLSD (natToDigitsRev fuel n) = n := by
  induction n using Nat.strong_induction_on with
  | _ n ih =>
    intro fuel hfuel
    cases fuel with
    | zero => omega
    | succ fuel' =>
      by_cases h10 : n < 10
      · simp only [natToDigitsRev, if_pos h10]
        refine ⟨by simp, ?_, ?_⟩
        · intro c hc
          rw [List.mem_singleton] at hc
          subst hc
          exact digitChar_isDigit n h10
        · simp [valLSD, digitChar_toNat n h10]
      · have hn0 : 0 < n := by omega
        have hdiv : n / 10 < n := Nat.div_lt_self hn0 (by omega)
        have hfuel' : n / 10 < fuel' := by omega
        obtain ⟨hne, hdig, hval⟩ := ih (n / 10) hdiv fuel' hfuel'
        have hmod : n % 10 < 10 := Nat.mod_lt n (by omega)
        simp only [natToDigitsRev, if_neg h10]
        refine ⟨by simp, ?_, ?_⟩
        · intro c hc
          rcases List.mem_cons.mp hc with rfl | hc'
          · exact digitChar_isDigit _ hmod
          · exact hdig c hc'
        · simp only [valLSD, hval, digitChar_toNat _ hmod]
          omega

theorem foldl_digits_reverse (ds : List Char) (acc : Nat) :
    List.foldl (fun a c => a * 10 + (c.toNat - 48)) acc ds.reverse =
      acc * 10 ^ ds.length + valLSD ds := by
  induction ds generalizing acc with
  | nil => simp [valLSD]
  | cons c rest ih =>
    simp only [List.reverse_cons, List.foldl_append, ih, List.foldl_cons, List.foldl_nil,
      valLSD, List.length_cons]
    ring

theorem parseAtoi_natToString (n : Nat) : parseAtoi (natToString n) = some (n : Int) := by
  obtain ⟨hne, hdig, hval⟩ := natToDigitsRev_spec n (n + 1) (Nat.lt_succ_self n)
  unfold natToString
  cases hrev : (natToDigitsRev (n + 1) n).reverse with
  | nil => exact absurd (List.reverse_eq_nil_iff.mp hrev) hne
  | cons c rest =>
    have hcmem : c ∈ natToDigitsRev (n + 1) n := by
      have : c ∈ (natToDigitsRev (n + 1) n).reverse := by rw [hrev]; simp
      simpa using this
    have hcdig : c.isDigit = true := hdig c hcmem
    have hcm : ¬ (c = '-') := by
      intro hh
      rw [hh] at hcdig
      simp [Char.isDigit] at hcdig
    have hcp : ¬ (c = '+') := by
      intro hh
      rw [hh] at hcdig
      simp [Char.isDigit] at hcdig
    have hall : ∀ x ∈ c :: rest, x.isDigit = true := by
      intro x hx
      rw [← hrev] at hx
      exact hdig x (by simpa using hx)
    show parseAtoi (String.mk (c :: rest)) = some (n : Int)
    unfold parseAtoi
    simp only [if_neg (not_or.mpr ⟨hcm, hcp⟩)]
    rw [if_neg (by simp : ¬ (c :: rest = []))]
    rw [if_pos (List.all_eq_true.mpr (fun x hx => hall x hx))]
    have hfold : (c :: rest).foldl (fun a ch => a * 10 + (ch.toNat - 48)) 0 = n := by
      rw [← hrev, foldl_digits_reverse]
      simpa using hval
    rw [hfold, if_neg hcm]

theorem intToString_natCast (n : Nat) : intToString (n : Int) = natToString n := by
  unfold intToString
  rw [if_neg (by omega : ¬ ((n : Int) < 0))]
  simp

theorem natToString_inj {a b : Nat} (h : natToString a = natToString b) : a = b := by
  have ha := parseAtoi_natToString a
  rw [h, parseAtoi_natToString b] at ha
  have hb : (b : Int) = (a : Int) := Option.some_inj.mp ha
  exact_mod_cast hb.symm

/-! ### Sorting and maximum lemmas -/

theorem getLastD_mem (l : List Int) (h : l ≠ []) : ∀ d, l.getLastD d ∈ l := by
  induction l with
  | nil => exact absurd rfl h
  | cons x rest ih =>
    intro d
    rw [List.getLastD_cons]
    cases hr : rest with
    | nil => simp [List.getLastD]
    | cons y ys =>
      subst hr
      exact List.mem_cons_of_mem _ (ih (by simp) x)

theorem le_getLastD_of_sorted (l : List Int) (hs : l.Sorted (· ≤ ·)) :
    ∀ x ∈ l, ∀ d, x ≤ l.getLastD d := by
  induction l with
  | nil => simp
  | cons a rest ih =>
    intro x hx d
    rw [List.getLastD_cons]
    have hs' : rest.Sorted (· ≤ ·) := (List.sorted_cons.mp hs).2
    rcases List.mem_cons.mp hx with rfl | hx'
    · by_cases hrnil : rest = []
      · subst hrnil
        simp [List.getLastD]
      · have hmem : rest.getLastD x ∈ rest := getLastD_mem rest hrnil x
        exact (List.sorted_cons.mp hs).1 _ hmem
    · exact ih hs' x hx' a

theorem sorted_getLastD_is_max (ids : List Int) (m : Int) (hmem : m ∈ ids)
    (hmax : ∀ x ∈ ids, x ≤ m) :
    (List.insertionSort (· ≤ ·) ids).getLastD 0 = m := by
  have hperm := List.perm_insertionSort (· ≤ ·) ids
  have hsort := List.sorted_insertionSort (· ≤ ·) ids
  have hne : List.insertionSort (· ≤ ·) ids ≠ [] := by
    intro hh
    rw [hh] at hperm
    rw [hperm.symm.eq_nil] at hmem
    simp at hmem
  have h1 : (List.insertionSort (· ≤ ·) ids).getLastD 0 ∈ List.insertionSort (· ≤ ·) ids :=
    getLastD_mem _ hne 0
  have h2 : (List.insertionSort (· ≤ ·) ids).getLastD 0 ∈ ids := hperm.mem_iff.mp h1
  have h3 := hmax _ h2
  have h4 : m ∈ List.insertionSort (· ≤ ·) ids := hperm.mem_iff.mpr hmem
  have h5 := le_getLastD_of_sorted _ hsort m h4 0
  omega

/-! ### collectFileIds lemmas -/

theorem collectFileIds_none_iff (stems : List String) :
    collectFileIds stems = none ↔ ∃ s ∈ stems, parseAtoi s = none := by
  induction stems with
  | nil => simp [collectFileIds]
  | cons s rest ih =>
    cases hp : parseAtoi s with
    | none =>
      have hl : collectFileIds (s :: rest) = none := by simp [collectFileIds, hp]
      exact ⟨fun _ => ⟨s, List.mem_cons_self _ _, hp⟩, fun _ => hl⟩
    | some v =>
      simp only [collectFileIds, hp, Option.map_eq_none', ih, List.mem_cons]
      constructor
      · rintro ⟨t, ht, hpt⟩
        exact ⟨t, Or.inr ht, hpt⟩
      · rintro ⟨t, (rfl | ht), hpt⟩
        · rw [hp] at hpt
          cases hpt
        · exact ⟨t, ht, hpt⟩

theorem collectFileIds_all_some (stems : List String)
    (h : ∀ s ∈ stems, (parseAtoi s).isSome) :
    collectFileIds stems = some (stems.map (fun s => (parseAtoi s).getD 0)) := by
  induction stems with
  | nil => rfl
  | cons s rest ih =>
    obtain ⟨v, hv⟩ := Option.isSome_iff_exists.mp (h s (List.mem_cons_self _ _))
    simp only [collectFileIds, hv, ih (fun t ht => h t (List.mem_cons_of_mem _ ht)),
      Option.map_some', List.map_cons, hv, Option.getD_some]

theorem nextAvailableFileId_max (stems : List String) (ids : List Int) (m : Int)
    (hcoll : collectFileIds stems = some ids) (hmem : m ∈ ids)
    (hmax : ∀ x ∈ ids, x ≤ m) :
    nextAvailableFileId stems = .ok (intToString (m + 1)) := by
  have hne : ids ≠ [] := by
    intro hh
    rw [hh] at hmem
    simp at hmem
  have hstep : nextAvailableFileId stems =
      (if ids = [] then GoResult.ok "1"
       else GoResult.ok (intToString ((List.insertionSort (· ≤ ·) ids).getLastD 0 + 1))) := by
    unfold nextAvailableFileId
    rw [hcoll]
  rw [hstep, if_neg hne, sorted_getLastD_is_max ids m hmem hmax]

/-! ### Handle-level helper lemmas -/

theorem initTagsIndexDB_tables (db : DB) (tblName : String) :
    (db.initTagsIndexDB tblName).1.tables = db.tables := by
  unfold DB.initTagsIndexDB
  cases hres : initTagsIndexFiles ((assocFind db.tables tblName).getD []) [] [] <;>
    simp [hres]

theorem find_of_present (db : DB) (tblName fileId : String) (files : TableFiles) (d : Doc)
    (htbl : assocFind db.tables tblName = some files)
    (hfile : assocFind files fileId = some (FileContent.doc d)) :
    db.find tblName fileId = .ok d := by
  simp [DB.find, htbl, hfile]

/-! ### Example states -/

/-- The spec's tag example: record 1 has tags a and b, record 2 has tag a,
record 3 has tag b. -/
def exTagFiles : TableFiles :=
  [("1", .doc [("tags", .jarr [.jstr "a", .jstr "b"])]),
   ("2", .doc [("tags", .jarr [.jstr "a"])]),
   ("3", .doc [("tags", .jarr [.jstr "b"])])]

/-- The tag index the rebuild derives from `exTagFiles`. -/
def exTagIdx : TagIdx := [("a", ["1", "2"]), ("b", ["1", "3"])]

/-- A one-table database in the state of the spec's tag example. -/
def exTagDB : DB := { tables := [("t", exTagFiles)], tagIndexes := [("t", exTagIdx)] }

/-! ### Claim theorems -/

/-- C1: `FindAllIdsForTags` has AND semantics: for a non-empty search list it
returns exactly the ids present in the index entry of every requested tag
(the intersection across the requested tags' candidate sets), and for the
empty search list it returns an empty result, not all records; on the spec's
example records, querying ["a","b"] yields {1}, ["a"] yields {1,2}, and []
yields the empty set. -/
theorem c1_findAllIdsForTags_and_semantics (db : DB) (tblName : String) (idx : TagIdx)
    (searchTags : List String) (files : TableFiles)
    (htbl : assocFind db.tables tblName = some files)
    (hidx : assocFind db.tagIndexes tblName = some idx)
    (hnodup : ∀ p ∈ idx, p.2.Nodup) :
    (db.findAllIdsForTags tblName [] = .ok []) ∧
    (searchTags ≠ [] →
      db.findAllIdsForTags tblName searchTags = .ok (findAllIdsForTagsIdx idx searchTags) ∧
      ∀ fid, fid ∈ findAllIdsForTagsIdx idx searchTags ↔
        ∀ t ∈ searchTags, fid ∈ lookupD idx t) ∧
    (initTagsIndexFiles exTagFiles [] [] = .ok exTagIdx ∧
      findAllIdsForTagsIdx exTagIdx ["a", "b"] = ["1"] ∧
      findAllIdsForTagsIdx exTagIdx ["a"] = ["1", "2"] ∧
      findAllIdsForTagsIdx exTagIdx [] = []) := by
  refine ⟨?_, fun hne => ⟨?_, fun fid => ?_⟩, by decide, by decide, by decide, by decide⟩
  · simp [DB.findAllIdsForTags, htbl, hidx, findAllIdsForTagsIdx]
  · simp [DB.findAllIdsForTags, htbl, hidx]
  · exact mem_findAllIdsForTagsIdx_inter idx searchTags fid hne hnodup

/-- C1 witness: the theorem applied to the spec's example state and the
two-tag query. -/
theorem c1_witness :
    exTagDB.findAllIdsForTags "t" ["a", "b"] =
        .ok (findAllIdsForTagsIdx exTagIdx ["a", "b"]) ∧
      ∀ fid, fid ∈ findAllIdsForTagsIdx exTagIdx ["a", "b"] ↔
        ∀ t ∈ ["a", "b"], fid ∈ lookupD exTagIdx t :=
  (c1_findAllIdsForTags_and_semantics exTagDB "t" exTagIdx ["a", "b"] exTagFiles rfl rfl
    (by decide)).2.1 (by decide)

/-- C3 counterexample: rebuilding over a record whose document lacks a
"tags" field panics (unchecked type assertion) instead of returning an
error; likewise for a non-array "tags" and a non-string element. -/
theorem c3_counterexample :
    initTagsIndexFiles [("1", FileContent.doc [("name", Jval.jstr "x")])] [] []
        = .panicked ∧
      initTagsIndexFiles [("1", FileContent.doc [("name", Jval.jstr "x")])] [] [] ≠ .err ∧
      initTagsIndexFiles [("1", FileContent.doc [("tags", Jval.jstr "x")])] [] []
        = .panicked ∧
      initTagsIndexFiles [("1", FileContent.doc [("tags", Jval.jarr [Jval.jbool true])])] [] []
        = .panicked := by
  exact ⟨rfl, by decide, rfl, rfl⟩

/-- C3 (amended): the rebuild succeeds when every record decodes and carries
a string-array "tags" (empty arrays permitted); a corrupt (unreadable or
JSON-malformed) file yields a returned error; but a first record whose
merged "tags" value is missing or not an array, or contains a non-string
element, makes the rebuild panic via the unchecked type assertions rather
than return a DecodeError. -/
theorem c3_initTagsIndex_behavior (files : TableFiles) :
    ((∀ p ∈ files, GoodTagsFile p) → ∃ idx, initTagsIndexFiles files [] [] = .ok idx) ∧
    (∀ pre fid post, files = pre ++ (fid, FileContent.corrupt) :: post →
      (∀ p ∈ pre, GoodTagsFile p) → initTagsIndexFiles files [] [] = .err) ∧
    (∀ (fid : String) (d : Doc) (rest : TableFiles),
      files = (fid, FileContent.doc d) :: rest →
      (∀ l, docGet d "tags" ≠ Jval.jarr l) →
      initTagsIndexFiles files [] [] = .panicked) ∧
    (∀ (fid : String) (d : Doc) (rest : TableFiles) (pre : List String) (v : Jval)
      (post : List Jval), files = (fid, FileContent.doc d) :: rest →
      docGet d "tags" = Jval.jarr (pre.map Jval.jstr ++ v :: post) →
      (∀ s, v ≠ Jval.jstr s) →
      initTagsIndexFiles files [] [] = .panicked) ∧
    (initTagsIndexFiles
        [("1", FileContent.doc [("tags", Jval.jarr [Jval.jstr "a"])]),
         ("2", FileContent.doc [("name", Jval.jstr "x")])] [] []
      = .ok [("a", ["1", "2"])]) := by
  refine ⟨?_, ?_, ?_, ?_, by decide⟩
  · exact fun h => initTagsIndexFiles_ok files h [] []
  · rintro pre fid post rfl h
    exact initTagsIndexFiles_err_of_corrupt pre fid post h [] []
  · rintro fid d rest rfl h
    exact initTagsIndexFiles_panic_of_first_not_array fid d rest [] h
  · rintro fid d rest pre v post rfl htags hv
    exact initTagsIndexFiles_panic_of_first_bad_elem fid d rest [] pre v post htags hv

/-- C3 witness: a single record with an empty tags array rebuilds
successfully. -/
theorem c3_witness :
    ∃ idx, initTagsIndexFiles [("1", FileContent.doc [("tags", Jval.jarr [])])] [] []
      = .ok idx :=
  (c3_initTagsIndex_behavior _).1 (by
    intro p hp
    rw [List.mem_singleton] at hp
    subst hp
    exact ⟨[("tags", Jval.jarr [])], [], rfl, rfl⟩)

/-- A one-table database whose only known table is "t". -/
def exDB4 : DB := { tables := [("t", [])], tagIndexes := [] }

/-- C4 counterexample: operations on the unknown table "u" panic on the nil
table lock; no "unknown table" error value is returned. -/
theorem c4_counterexample :
    DB.find exDB4 "u" "1" = .panicked ∧
      DB.find exDB4 "u" "1" ≠ .err ∧
      DB.create exDB4 "u" [] = (exDB4, .panicked) ∧
      DB.update exDB4 "u" [] "1" = (exDB4, .panicked) ∧
      DB.delete exDB4 "u" "7" = (exDB4, .panicked) := by
  refine ⟨rfl, ?_, rfl, rfl, rfl⟩
  intro h
  rw [show DB.find exDB4 "u" "1" = .panicked from rfl] at h
  cases h

/-- C4 (amended): every public operation on a table unknown at open time
panics when it reaches the nil lock, before touching the filesystem and
without mutating any state; only `Delete` with a non-integer id returns (the
id-parse error) instead, its `strconv.Atoi` check running before the lock
is taken. -/
theorem c4_unknown_table_panics (db : DB) (tblName : String)
    (h : assocFind db.tables tblName = none) :
    (∀ fileId, db.find tblName fileId = .panicked) ∧
    db.findAllIds tblName = .panicked ∧
    (∀ f v, db.findFirstIdForField tblName f v = .panicked) ∧
    (∀ f v, db.findAllIdsForField tblName f v = .panicked) ∧
    (∀ ts, db.findAllIdsForTags tblName ts = .panicked) ∧
    (∀ d, db.create tblName d = (db, .panicked)) ∧
    (∀ d fileId, db.update tblName d fileId = (db, .panicked)) ∧
    (∀ fileId n, parseAtoi fileId = some n → db.delete tblName fileId = (db, .panicked)) ∧
    (∀ fileId, parseAtoi fileId = none → db.delete tblName fileId = (db, .err)) := by
  refine ⟨?_, ?_, ?_, ?_, ?_, ?_, ?_, ?_, ?_⟩
  · intro fileId
    simp [DB.find, h]
  · simp [DB.findAllIds, h]
  · intro f v
    simp [DB.findFirstIdForField, h]
  · intro f v
    simp [DB.findAllIdsForField, h]
  · intro ts
    simp [DB.findAllIdsForTags, h]
  · intro d
    simp [DB.create, h]
  · intro d fileId
    simp [DB.update, h]
  · intro fileId n hp
    simp [DB.delete, h, hp]
  · intro fileId hp
    simp [DB.delete, hp]

/-- C4 witness: the theorem applied to a concrete handle and the unknown
table name "u". -/
theorem c4_witness :
    DB.findAllIds exDB4 "u" = .panicked ∧
      DB.update exDB4 "u" [] "1" = (exDB4, .panicked) :=
  ⟨(c4_unknown_table_panics exDB4 "u" rfl).2.1,
   (c4_unknown_table_panics exDB4 "u" rfl).2.2.2.2.2.2.1 [] "1"⟩

theorem update_behavior (db : DB) (tblName fileId : String) (files : TableFiles)
    (recDoc : Doc) (htbl : assocFind db.tables tblName = some files) :
    (parseAtoi fileId = none → db.update tblName recDoc fileId = (db, .err)) ∧
    (∀ n, parseAtoi fileId = some n →
      (db.update tblName recDoc fileId).2 ≠ .err ∧
      (db.update tblName recDoc fileId).1.tables =
        assocUpdate db.tables tblName
          (assocUpdate files fileId (FileContent.doc recDoc))) := by
  constructor
  · intro hp
    simp [DB.update, htbl, hp]
  · intro n hp
    have hupd : db.update tblName recDoc fileId =
        match (DB.mk
            (assocUpdate db.tables tblName (assocUpdate files fileId (FileContent.doc recDoc)))
            db.tagIndexes).initTagsIndexDB tblName with
        | (db3, .panicked) => (db3, .panicked)
        | (db3, _) => (db3, .ok ()) := by
      simp [DB.update, htbl, hp]
    rcases hI : (DB.mk
        (assocUpdate db.tables tblName (assocUpdate files fileId (FileContent.doc recDoc)))
        db.tagIndexes).initTagsIndexDB tblName with ⟨db3, r⟩
    have hkeep := initTagsIndexDB_tables (DB.mk
        (assocUpdate db.tables tblName (assocUpdate files fileId (FileContent.doc recDoc)))
        db.tagIndexes) tblName
    rw [hI] at hkeep
    rw [hupd, hI]
    cases r with
    | ok u => exact ⟨(by intro hh; cases hh), hkeep⟩
    | err => exact ⟨(by intro hh; cases hh), hkeep⟩
    | panicked => exact ⟨(by intro hh; cases hh), hkeep⟩

/-- C7: `Update` checks only that the id string parses as an integer
(returning the parse error and leaving the state unchanged when it does
not), makes no existence check, overwrites the record file unconditionally
(creating it when absent), and a subsequent `Find` at that id returns
exactly the updated document. -/
theorem c7_update_semantics (db : DB) (tblName fileId : String) (files : TableFiles)
    (recDoc : Doc) (htbl : assocFind db.tables tblName = some files) :
    (parseAtoi fileId = none → db.update tblName recDoc fileId = (db, .err)) ∧
    (∀ n, parseAtoi fileId = some n →
      (db.update tblName recDoc fileId).2 ≠ .err ∧
      assocFind (db.update tblName recDoc fileId).1.tables tblName =
        some (assocUpdate files fileId (FileContent.doc recDoc)) ∧
      assocFind (assocUpdate files fileId (FileContent.doc recDoc)) fileId =
        some (FileContent.doc recDoc) ∧
      (db.update tblName recDoc fileId).1.find tblName fileId = .ok recDoc) := by
  obtain ⟨h1, h2⟩ := update_behavior db tblName fileId files recDoc htbl
  refine ⟨h1, fun n hp => ?_⟩
  obtain ⟨hne, htab⟩ := h2 n hp
  have hfindTbl : assocFind (db.update tblName recDoc fileId).1.tables tblName =
      some (assocUpdate files fileId (FileContent.doc recDoc)) := by
    rw [htab, assocFind_assocUpdate, if_pos rfl]
  have hfindFile : assocFind (assocUpdate files fileId (FileContent.doc recDoc)) fileId =
      some (FileContent.doc recDoc) := by
    rw [assocFind_assocUpdate, if_pos rfl]
  exact ⟨hne, hfindTbl, hfindFile, find_of_present _ _ _ _ _ hfindTbl hfindFile⟩

/-- C7 witness: updating the nonexistent id "5" in an empty table creates
the record and `Find` retrieves the updated document. -/
theorem c7_witness :
    (DB.update exDB4 "t" [("tags", Jval.jarr [])] "5").2 ≠ .err ∧
      assocFind (DB.update exDB4 "t" [("tags", Jval.jarr [])] "5").1.tables "t" =
        some (assocUpdate [] "5" (FileContent.doc [("tags", Jval.jarr [])])) ∧
      assocFind (assocUpdate [] "5" (FileContent.doc [("tags", Jval.jarr [])])) "5" =
        some (FileContent.doc [("tags", Jval.jarr [])]) ∧
      (DB.update exDB4 "t" [("tags", Jval.jarr [])] "5").1.find "t" "5" =
        .ok [("tags", Jval.jarr [])] :=
  (c7_update_semantics exDB4 "t" "5" [] [("tags", Jval.jarr [])] rfl).2 5 (by decide)

/-- Table state for the swallowed-rebuild-error scenario: record 1 is a
well-tagged document, record 2 has become unreadable (a passthrough I/O
failure such as a permissions change). -/
def exBadFiles : TableFiles :=
  [("1", .doc [("tags", .jarr [.jstr "a"])]), ("2", .corrupt)]

/-- Handle whose table "t" is in state `exBadFiles`, its index still holding
tag "a" for record 1. -/
def exBadDB : DB := { tables := [("t", exBadFiles)], tagIndexes := [("t", [("a", ["1"])])] }

/-- The document the update writes over record 1: tag "b" instead of "a". -/
def exNewDoc : Doc := [("tags", .jarr [.jstr "b"])]

/-- The table contents after that update. -/
def exBadFilesAfter : TableFiles :=
  [("1", FileContent.doc exNewDoc), ("2", FileContent.corrupt)]

/-- C2 (code bug): `Update` discards the result of `initTagsIndex` (the
`err != nil` check after the call still reads the nil error of the
preceding write), so when the write succeeds but the rebuild fails, `Update`
returns nil: the rebuild error is silently swallowed, while `Create` and
`Delete` in the same state do surface it. -/
theorem c2_update_swallows_rebuild_error :
    (DB.update exBadDB "t" exNewDoc "1").2 = .ok () ∧
      assocFind (DB.update exBadDB "t" exNewDoc "1").1.tables "t" = some exBadFilesAfter ∧
      initTagsIndexFiles exBadFilesAfter [] [] = .err ∧
      (DB.create exBadDB "t" exNewDoc).2 = .err ∧
      (DB.delete exBadDB "t" "1").2 = .err := by
  exact ⟨rfl, rfl, rfl, rfl, rfl⟩

/-- C6 (code bug): after an `Update` that returned nil (success), the
on-disk record 1 carries tag "b" but the in-memory index still answers the
old state: querying "b" finds nothing and querying "a" still returns record
1 — the index does not equal the one derived from the record files. -/
theorem c6_index_stale_after_successful_update :
    (DB.update exBadDB "t" exNewDoc "1").2 = .ok () ∧
      DB.find (DB.update exBadDB "t" exNewDoc "1").1 "t" "1" = .ok exNewDoc ∧
      DB.findAllIdsForTags (DB.update exBadDB "t" exNewDoc "1").1 "t" ["b"] = .ok [] ∧
      DB.findAllIdsForTags (DB.update exBadDB "t" exNewDoc "1").1 "t" ["a"] = .ok ["1"] := by
  exact ⟨rfl, rfl, by decide, by decide⟩

/-- Table whose record 1 stores a boolean under "bar" — a stored field of
non-int/string kind. -/
def exBoolDB : DB :=
  { tables := [("t", [("1", FileContent.doc [("bar", Jval.jbool true)])])], tagIndexes := [] }

/-- Table whose record 1 stores a JSON number under "bar" (decoded as
`float64`). -/
def exNumDB : DB :=
  { tables := [("t", [("1", FileContent.doc [("bar", Jval.jnum 5)])])], tagIndexes := [] }

/-- C8 counterexample: the scans do not skip a record whose stored field has
a different kind — the unchecked type assertion panics: a string search over
a boolean field panics, and an integer search panics as soon as any record
exists (decoded JSON numbers are `float64`, never Go `int`), instead of the
scan completing without a match. -/
theorem c8_counterexample :
    DB.findAllIdsForField exBoolDB "t" "bar" (SearchValue.sString "x") = .panicked ∧
      DB.findFirstIdForField exBoolDB "t" "bar" (SearchValue.sString "x") = .panicked ∧
      DB.findFirstIdForField exNumDB "t" "bar" (SearchValue.sInt 5) = .panicked ∧
      DB.findAllIdsForField exNumDB "t" "bar" (SearchValue.sInt 5) = .panicked := by
  exact ⟨rfl, rfl, rfl, rfl⟩

/-- C8 (amended): the scans walk every record file in listing order; a
string search over records whose field values are all strings returns the
first match (`FindFirstIdForField`) resp. every match (`FindAllIdsForField`)
by exact string equality; a search value outside the switch's cases never
matches and the scan completes; but an `int` search value panics on the
first decoded record (decoded numbers are `float64`, never `int`), as do
`int32`/`int64` in `FindFirstIdForField`, while `FindAllIdsForField` has no
`int32`/`int64` cases so those simply never match. -/
theorem c8_field_scan_semantics (db : DB) (tblName searchField : String)
    (files : TableFiles) (htbl : assocFind db.tables tblName = some files) :
    (∀ s, AllFieldsStr files searchField →
      db.findFirstIdForField tblName searchField (.sString s)
          = .ok (firstMatchId files searchField s) ∧
      db.findAllIdsForField tblName searchField (.sString s)
          = .ok (allMatchIds files searchField s)) ∧
    ((∀ p ∈ files, GoodDocFile p) →
      db.findFirstIdForField tblName searchField .sOther = .ok "" ∧
      db.findAllIdsForField tblName searchField .sOther = .ok [] ∧
      (∀ n, db.findAllIdsForField tblName searchField (.sInt32 n) = .ok []) ∧
      (∀ n, db.findAllIdsForField tblName searchField (.sInt64 n) = .ok [])) ∧
    (∀ (n : Int) (fid : String) (d : Doc) (rest : TableFiles),
      files = (fid, FileContent.doc d) :: rest →
      db.findFirstIdForField tblName searchField (.sInt n) = .panicked ∧
      db.findFirstIdForField tblName searchField (.sInt32 n) = .panicked ∧
      db.findFirstIdForField tblName searchField (.sInt64 n) = .panicked ∧
      db.findAllIdsForField tblName searchField (.sInt n) = .panicked) := by
  refine ⟨?_, ?_, ?_⟩
  · intro s hstr
    constructor
    · simp only [DB.findFirstIdForField, htbl]
      exact findFirstIdForFieldFiles_string searchField s files hstr []
    · simp only [DB.findAllIdsForField, htbl]
      simpa using findAllIdsForFieldFiles_string searchField s files hstr [] []
  · intro hdocs
    refine ⟨?_, ?_, ?_, ?_⟩
    · simp only [DB.findFirstIdForField, htbl]
      exact findFirstIdForFieldFiles_unsupported searchField files hdocs []
    · simp only [DB.findAllIdsForField, htbl]
      exact findAllIdsForFieldFiles_no_case searchField .sOther files
        (fun v => rfl) hdocs [] []
    · intro n
      simp only [DB.findAllIdsForField, htbl]
      exact findAllIdsForFieldFiles_no_case searchField (.sInt32 n) files
        (fun v => rfl) hdocs [] []
    · intro n
      simp only [DB.findAllIdsForField, htbl]
      exact findAllIdsForFieldFiles_no_case searchField (.sInt64 n) files
        (fun v => rfl) hdocs [] []
  · rintro n fid d rest rfl
    refine ⟨?_, ?_, ?_, ?_⟩
    · simp only [DB.findFirstIdForField, htbl]
      exact (findFirstIdForFieldFiles_int_panics searchField n fid d rest []).1
    · simp only [DB.findFirstIdForField, htbl]
      exact (findFirstIdForFieldFiles_int_panics searchField n fid d rest []).2.1
    · simp only [DB.findFirstIdForField, htbl]
      exact (findFirstIdForFieldFiles_int_panics searchField n fid d rest []).2.2
    · simp only [DB.findAllIdsForField, htbl]
      exact findAllIdsForFieldFiles_int_panics searchField n fid d rest [] []

/-- Table with three string-valued "bar" fields for the scan witness. -/
def exStrFiles : TableFiles :=
  [("1", FileContent.doc [("bar", Jval.jstr "x")]),
   ("2", FileContent.doc [("bar", Jval.jstr "y")]),
   ("3", FileContent.doc [("bar", Jval.jstr "x")])]

/-- Handle holding `exStrFiles` under table "t". -/
def exStrDB : DB := { tables := [("t", exStrFiles)], tagIndexes := [] }

/-- C8 witness: a concrete string search returning first and all matches. -/
theorem c8_witness :
    DB.findFirstIdForField exStrDB "t" "bar" (.sString "x")
        = .ok (firstMatchId exStrFiles "bar" "x") ∧
      DB.findAllIdsForField exStrDB "t" "bar" (.sString "x")
        = .ok (allMatchIds exStrFiles "bar" "x") :=
  (c8_field_scan_semantics exStrDB "t" "bar" exStrFiles rfl).1 "x" (by
    intro p hp
    simp only [exStrFiles, List.mem_cons, List.mem_singleton] at hp
    rcases hp with rfl | rfl | rfl | hfalse
    · exact ⟨[("bar", Jval.jstr "x")], "x", rfl, rfl⟩
    · exact ⟨[("bar", Jval.jstr "y")], "y", rfl, rfl⟩
    · exact ⟨[("bar", Jval.jstr "x")], "x", rfl, rfl⟩
    · cases hfalse)

/-- Table whose only record file is unreadable. -/
def exCorruptDB : DB :=
  { tables := [("t", [("1", FileContent.corrupt)])], tagIndexes := [] }

/-- C9 counterexample: the frozen claim fails outside the completing-scan
cases — with no record matching, an integer search over a nonempty table
panics, a string search over a non-string stored field panics, and a scan
hitting an unreadable file returns the read error; none of these returns
the claimed empty string with nil error. -/
theorem c9_counterexample :
    DB.findFirstIdForField exNumDB "t" "bar" (SearchValue.sInt 7) = .panicked ∧
      DB.findFirstIdForField exNumDB "t" "bar" (SearchValue.sInt 7) ≠ .ok "" ∧
      DB.findFirstIdForField exBoolDB "t" "bar" (SearchValue.sString "z") = .panicked ∧
      DB.findFirstIdForField exBoolDB "t" "bar" (SearchValue.sString "z") ≠ .ok "" ∧
      DB.findFirstIdForField exCorruptDB "t" "bar" (SearchValue.sString "z") = .err := by
  refine ⟨rfl, ?_, rfl, ?_, rfl⟩
  · intro h
    rw [show DB.findFirstIdForField exNumDB "t" "bar" (SearchValue.sInt 7) = .panicked
      from rfl] at h
    cases h
  · intro h
    rw [show DB.findFirstIdForField exBoolDB "t" "bar" (SearchValue.sString "z") = .panicked
      from rfl] at h
    cases h

/-- C9 (amended): when the scan can complete — every record file decodes
and, for a string search, every record's field value is a string — a
no-match scan returns the empty string with a nil error (likewise for a
search value outside the switch's kinds over a decodable table); but when
no record matches and the scan cannot complete, the outcome is not
`("", nil)`: an integer search panics on the first decoded record, and a
scan reaching an unreadable file returns the read error. -/
theorem c9_no_match_outcomes (db : DB) (tblName searchField : String)
    (files : TableFiles) (htbl : assocFind db.tables tblName = some files) :
    (∀ s, (∀ p ∈ files, ∃ (d : Doc) (t : String),
        p.2 = FileContent.doc d ∧ docGet d searchField = Jval.jstr t ∧ t ≠ s) →
      db.findFirstIdForField tblName searchField (.sString s) = .ok "") ∧
    ((∀ p ∈ files, GoodDocFile p) →
      db.findFirstIdForField tblName searchField .sOther = .ok "") ∧
    (∀ (n : Int) (fid : String) (d : Doc) (rest : TableFiles),
      files = (fid, FileContent.doc d) :: rest →
      db.findFirstIdForField tblName searchField (.sInt n) = .panicked) ∧
    (∀ (fid : String) (rest : TableFiles), files = (fid, FileContent.corrupt) :: rest →
      ∀ s, db.findFirstIdForField tblName searchField (.sString s) = .err) := by
  refine ⟨?_, ?_, ?_, ?_⟩
  · intro s hnm
    have hstr : AllFieldsStr files searchField := by
      intro p hp
      obtain ⟨d, t, hdoc, hf, _⟩ := hnm p hp
      exact ⟨d, t, hdoc, hf⟩
    have hfind : files.find? (fun p => hasFieldStr p.2 searchField s) = none := by
      rw [List.find?_eq_none]
      intro p hp
      obtain ⟨d, t, hdoc, hf, hts⟩ := hnm p hp
      simp [hasFieldStr, hdoc, hf, hts]
    simp only [DB.findFirstIdForField, htbl,
      findFirstIdForFieldFiles_string searchField s files hstr []]
    simp [firstMatchId, hfind]
  · intro hdocs
    simp only [DB.findFirstIdForField, htbl]
    exact findFirstIdForFieldFiles_unsupported searchField files hdocs []
  · rintro n fid d rest rfl
    simp only [DB.findFirstIdForField, htbl]
    exact (findFirstIdForFieldFiles_int_panics searchField n fid d rest []).1
  · rintro fid rest rfl s
    simp only [DB.findFirstIdForField, htbl]
    rfl

/-- C9 witness: searching "bar" for "z" in `exStrFiles` (values "x","y","x")
returns the empty id and nil error. -/
theorem c9_witness :
    DB.findFirstIdForField exStrDB "t" "bar" (.sString "z") = .ok "" :=
  (c9_no_match_outcomes exStrDB "t" "bar" exStrFiles rfl).1 "z" (by
    intro p hp
    simp only [exStrFiles, List.mem_cons, List.mem_singleton] at hp
    rcases hp with rfl | rfl | rfl | hfalse
    · exact ⟨[("bar", Jval.jstr "x")], "x", rfl, rfl, by decide⟩
    · exact ⟨[("bar", Jval.jstr "y")], "y", rfl, rfl, by decide⟩
    · exact ⟨[("bar", Jval.jstr "x")], "x", rfl, rfl, by decide⟩
    · cases hfalse)

theorem nextAvailableFileId_of_collect (stems : List String) (ids : List Int)
    (h : collectFileIds stems = some ids) :
    nextAvailableFileId stems =
      (if ids = [] then GoResult.ok "1"
       else GoResult.ok (intToString ((List.insertionSort (· ≤ ·) ids).getLastD 0 + 1))) := by
  unfold nextAvailableFileId
  rw [h]

theorem nextAvailableFileId_of_collect_none (stems : List String)
    (h : collectFileIds stems = none) : nextAvailableFileId stems = .err := by
  unfold nextAvailableFileId
  rw [h]

/-- C5: id allocation returns "1" for an empty table and the decimal string
of (maximum existing id + 1) otherwise, failing with an error when any
filename stem does not parse as an integer; hence with record ids 1..k-1 on
disk (ids 1..k created, the maximal id k deleted) the next id is k again,
while with ids {1..k} minus a non-maximal j the next id is k+1 — the gap at
j persists. -/
theorem c5_nextAvailableFileId_spec :
    (nextAvailableFileId [] = .ok "1") ∧
    (∀ (stems : List String) (ids : List Int) (m : Int),
      collectFileIds stems = some ids → m ∈ ids → (∀ x ∈ ids, x ≤ m) →
      nextAvailableFileId stems = .ok (intToString (m + 1))) ∧
    (∀ (stems : List String) (s : String), s ∈ stems → parseAtoi s = none →
      nextAvailableFileId stems = .err) ∧
    (∀ k : Nat, 1 ≤ k →
      nextAvailableFileId ((List.range (k - 1)).map (fun i => natToString (i + 1)))
        = .ok (natToString k)) ∧
    (∀ k j : Nat, 1 ≤ j → j < k →
      nextAvailableFileId
          (((List.range k).map (fun i => natToString (i + 1))).filter
            (fun st => st ≠ natToString j))
        = .ok (natToString (k + 1))) := by
  refine ⟨rfl, nextAvailableFileId_max, ?_, ?_, ?_⟩
  · intro stems s hs hp
    exact nextAvailableFileId_of_collect_none stems
      ((collectFileIds_none_iff stems).mpr ⟨s, hs, hp⟩)
  · intro k hk
    by_cases hk1 : k = 1
    · subst hk1
      decide
    · have hk2 : 2 ≤ k := by omega
      have hall : ∀ st ∈ (List.range (k - 1)).map (fun i => natToString (i + 1)),
          (parseAtoi st).isSome := by
        intro st hst
        obtain ⟨i, hi, rfl⟩ := List.mem_map.mp hst
        rw [parseAtoi_natToString]
        rfl
      have hcoll := collectFileIds_all_some _ hall
      have hids : ((List.range (k - 1)).map (fun i => natToString (i + 1))).map
            (fun st => (parseAtoi st).getD 0)
          = (List.range (k - 1)).map (fun i => ((i + 1 : Nat) : Int)) := by
        rw [List.map_map]
        apply List.map_congr_left
        intro i hi
        simp [Function.comp, parseAtoi_natToString]
      rw [hids] at hcoll
      have hgoal := nextAvailableFileId_max _ _ (((k - 1 : Nat) : Int)) hcoll
        (List.mem_map.mpr ⟨k - 2, List.mem_range.mpr (by omega), by congr 1; omega⟩)
        (by
          intro x hx
          obtain ⟨i, hi, rfl⟩ := List.mem_map.mp hx
          rw [List.mem_range] at hi
          omega)
      rw [hgoal]
      rw [show (((k - 1 : Nat) : Int) + 1) = ((k : Nat) : Int) by omega]
      rw [intToString_natCast k]
  · intro k j hj hjk
    have hne : natToString k ≠ natToString j := fun hh => by
      have := natToString_inj hh
      omega
    have hall : ∀ st ∈ ((List.range k).map (fun i => natToString (i + 1))).filter
        (fun st => st ≠ natToString j), (parseAtoi st).isSome := by
      intro st hst
      obtain ⟨i, hi, rfl⟩ := List.mem_map.mp (List.mem_filter.mp hst).1
      rw [parseAtoi_natToString]
      rfl
    have hcoll := collectFileIds_all_some _ hall
    have hgoal := nextAvailableFileId_max _ _ ((k : Nat) : Int) hcoll
      (List.mem_map.mpr ⟨natToString k,
        List.mem_filter.mpr ⟨List.mem_map.mpr ⟨k - 1, List.mem_range.mpr (by omega),
          by congr 1; omega⟩, by rw [decide_eq_true_eq]; exact hne⟩,
        by rw [parseAtoi_natToString]; rfl⟩)
      (by
        intro x hx
        obtain ⟨st, hst, rfl⟩ := List.mem_map.mp hx
        obtain ⟨i, hi, rfl⟩ := List.mem_map.mp (List.mem_filter.mp hst).1
        rw [List.mem_range] at hi
        rw [parseAtoi_natToString]
        simp only [Option.getD_some]
        omega)
    rw [hgoal]
    rw [show (((k : Nat) : Int) + 1) = (((k + 1 : Nat)) : Int) by omega]
    rw [intToString_natCast (k + 1)]

/-- C5 witness: the gap-persistence conjunct at k = 3, j = 1: with record
ids {2,3} on disk the next id is 4. -/
theorem c5_witness :
    nextAvailableFileId (((List.range 3).map (fun i => natToString (i + 1))).filter
        (fun st => st ≠ natToString 1)) = .ok (natToString 4) :=
  c5_nextAvailableFileId_spec.2.2.2.2 3 1 (by omega) (by omega)

/-- C10: the allocated id is invariant under permutation of the
directory-listing order: two enumeration orders of the same record
filenames yield the same successful id (the parsed ids are sorted and the
maximum taken), even though the listing itself has no defined order. -/
theorem c10_nextAvailableFileId_perm_invariant (stems1 stems2 : List String)
    (hperm : stems1.Perm stems2) :
    ∀ idstr, nextAvailableFileId stems1 = .ok idstr ↔
      nextAvailableFileId stems2 = .ok idstr := by
  intro idstr
  by_cases hbad : ∃ s ∈ stems1, parseAtoi s = none
  · have hbad2 : ∃ s ∈ stems2, parseAtoi s = none := by
      obtain ⟨s, hs, hp⟩ := hbad
      exact ⟨s, hperm.mem_iff.mp hs, hp⟩
    rw [nextAvailableFileId_of_collect_none stems1 ((collectFileIds_none_iff stems1).mpr hbad),
      nextAvailableFileId_of_collect_none stems2 ((collectFileIds_none_iff stems2).mpr hbad2)]
  · have hall1 : ∀ s ∈ stems1, (parseAtoi s).isSome := by
      intro s hs
      cases hopt : parseAtoi s with
      | none => exact absurd ⟨s, hs, hopt⟩ hbad
      | some v => rfl
    have hall2 : ∀ s ∈ stems2, (parseAtoi s).isSome :=
      fun s hs => hall1 s (hperm.mem_iff.mpr hs)
    have hc1 := collectFileIds_all_some stems1 hall1
    have hc2 := collectFileIds_all_some stems2 hall2
    have hpermIds : (stems1.map (fun s => (parseAtoi s).getD 0)).Perm
        (stems2.map (fun s => (parseAtoi s).getD 0)) := hperm.map _
    rw [nextAvailableFileId_of_collect _ _ hc1, nextAvailableFileId_of_collect _ _ hc2]
    by_cases hnil : stems1 = []
    · subst hnil
      have h2 : stems2 = [] := hperm.nil_eq.symm
      subst h2
      exact Iff.rfl
    · have hnil2 : stems2 ≠ [] := by
        intro hh
        subst hh
        exact hnil hperm.eq_nil
      have hsorted :
          List.insertionSort (· ≤ ·) (stems1.map (fun s => (parseAtoi s).getD 0))
            = List.insertionSort (· ≤ ·) (stems2.map (fun s => (parseAtoi s).getD 0)) := by
        exact List.eq_of_perm_of_sorted
          ((List.perm_insertionSort (· ≤ ·) _).trans
            (hpermIds.trans (List.perm_insertionSort (· ≤ ·) _).symm))
          (List.sorted_insertionSort (· ≤ ·) _)
          (List.sorted_insertionSort (· ≤ ·) _)
      rw [if_neg (by simp [List.map_eq_nil_iff, hnil]),
        if_neg (by simp [List.map_eq_nil_iff, hnil2]), hsorted]

/-- C10 witness: two orders of the stems {2,7,3} allocate the same id 8. -/
theorem c10_witness :
    nextAvailableFileId ["2", "7", "3"] = .ok "8" ∧
      (nextAvailableFileId ["2", "7", "3"] = .ok "8" ↔
        nextAvailableFileId ["7", "3", "2"] = .ok "8") :=
  ⟨by decide,
   c10_nextAvailableFileId_perm_invariant ["2", "7", "3"] ["7", "3", "2"] (by decide) "8"⟩

end Ivy
